import Mathlib

/-!
# Verification of the netplan interface-configuration module

A shallow embedding of `src/ifconfig.rs` (module `ifconfig` of the `roxy`
repository).  The Rust module manages netplan YAML documents: it parses them
(serde with a strict top level), merges several documents into one, mutates
single interfaces (`set_interface`, `init_interface`, `delete`), validates
proposed edits (`set`), and commits the merged document back to the
configuration directory (`apply`).

Embedding conventions:
* Rust `HashMap`s and the serde-ordered `ethernets` map become association
  lists `List (String × _)`; `HashMap::insert`/`get_mut` become
  first-occurrence replace-or-append on the list.
* Rust's `sort_by(|a, b| a.0.cmp(&b.0))` is a stable sort by the byte-wise
  (equivalently, code-point-wise, since UTF-8 is order preserving) string
  order; we model it with `List.insertionSort` (also stable) over `strLe`,
  an explicit code-point comparison.
* `serde_yaml` values are modelled by the inductive `Yaml`; the derived
  (de)serializers of the module's structs are translated field attribute by
  field attribute (`deny_unknown_fields`, `skip_serializing_if`, implicit
  `Option` defaulting).  Text-level YAML syntax is the external
  `serde_yaml` crate and is outside the embedding.
* IP-syntax validation (`validate_ipnetworks` / `validate_ipaddress`) calls
  the external `ipnet` and `std::net` parsers; the embedding abstracts them
  as boolean-valued parameters `vn` (networks) and `va` (addresses).
* File-system state is a pair of association lists (staging directory
  `/tmp`, target directory) keyed by file name; `format!("dir/fname")`
  path equality reduces to file-name equality because the directory part is
  fixed throughout `apply`.
* `anyhow` error messages are mapped to the spec's error taxonomy by the
  inductive `IfError`.
-/

namespace Roxy

/-- Code-point-wise lexicographic comparison of character lists, the order
`Ord for String` induces in Rust (byte-wise comparison of UTF-8 data, which
coincides with code-point order). -/
def strLeAux : List Char → List Char → Bool
  | [], _ => true
  | _ :: _, [] => false
  | a :: as, b :: bs =>
    if a.toNat < b.toNat then true
    else if b.toNat < a.toNat then false
    else strLeAux as bs

/-- `a ≤ b` in Rust's `String` ordering. -/
def strLe (a b : String) : Bool := strLeAux a.data b.data

/-- The error taxonomy of the module (§7 of the specification), naming the
distinct `anyhow!` failure messages of `ifconfig.rs`. -/
inductive IfError where
  /-- parse or schema failure (serde error out of `NetplanYaml::new`) -/
  | malformedConfig (msg : String)
  /-- "Netplan configuration not found!" -/
  | configNotFound
  /-- "interface not found!" -/
  | interfaceNotFound
  /-- "invalid interface address / gateway4 address / nameserver address" -/
  | invalidAddress (value : String)
  /-- "only one interface can have gateway." -/
  | gatewayConflict
  /-- "dhcp4 and static address cannot be set in the same interface" -/
  | conflictingAddressMode
  /-- file-system failure inside `apply` -/
  | ioError (path : String)
deriving DecidableEq

/-- `struct Nic` of `ifconfig.rs` (one ethernet interface entry).
`nameservers: Option<HashMap<String, Vec<String>>>` becomes an association
list from role name to value list. -/
structure Nic where
  addresses : Option (List String)
  dhcp4 : Option Bool
  gateway4 : Option String
  nameservers : Option (List (String × List String))
  optional : Option Bool
deriving DecidableEq

/-- `struct NicOutput` of `ifconfig.rs` (the external, flattened view of an
interface). -/
structure NicOutput where
  addresses : Option (List String)
  dhcp4 : Option Bool
  gateway4 : Option String
  nameservers : Option (List String)
deriving DecidableEq

/-- `struct Address` of `ifconfig.rs` (a bridge's nameserver block).
`search` carries `skip_serializing_if`, `addresses` does not. -/
structure Address where
  search : Option (List String)
  addresses : Option (List String)
deriving DecidableEq

/-- `struct Bridge` of `ifconfig.rs`. -/
structure Bridge where
  interfaces : List String
  addresses : List String
  gateway4 : Option String
  nameservers : Address
deriving DecidableEq

/-- `struct Network` of `ifconfig.rs`; `ethernets` keeps document order as a
`Vec<(String, Nic)>` via `serde_as`, `bridges` is an optional map. -/
structure Network where
  version : Option Nat
  renderer : Option String
  ethernets : List (String × Nic)
  bridges : Option (List (String × Bridge))
deriving DecidableEq

/-- `struct NetplanYaml` of `ifconfig.rs` — the whole document.  The struct
carries `#[serde(deny_unknown_fields)]`. -/
structure NetplanYaml where
  network : Network
deriving DecidableEq

/-! ## Association-list helpers (Rust `HashMap` / `Vec` find-and-mutate) -/

/-- First-occurrence lookup, the behaviour of `iter().find(|x| x.0 == k)`
and of `HashMap::get` (keys are unique in a real `HashMap`). -/
def lookupKv {β : Type} : List (String × β) → String → Option β
  | [], _ => none
  | (k, v) :: rest, key => if k = key then some v else lookupKv rest key

/-- Does some entry carry this key?  (`iter().find(...)` succeeded.) -/
def hasKey {β : Type} (l : List (String × β)) (k : String) : Bool :=
  l.any (fun p => p.1 == k)

/-- Replace the value of the first entry with the given key, as
`iter_mut().find(...)` followed by `item.1 = v` does. -/
def replaceFirst {β : Type} : List (String × β) → String → β → List (String × β)
  | [], _, _ => []
  | (k, v) :: rest, key, nv =>
    if k = key then (k, nv) :: rest else (k, v) :: replaceFirst rest key nv

/-- Remove the first entry with the given key (`fs::remove_file` on a
directory modelled as an association list with unique keys). -/
def eraseKey {β : Type} : List (String × β) → String → List (String × β)
  | [], _ => []
  | (k, v) :: rest, key =>
    if k = key then rest else (k, v) :: eraseKey rest key

/-- Replace-or-append: `HashMap::insert`, and the create-or-truncate write
of a file into a directory. -/
def upsert {β : Type} (l : List (String × β)) (k : String) (v : β) : List (String × β) :=
  if hasKey l k then replaceFirst l k v else l ++ [(k, v)]

/-! ## Sorting (`self.network.ethernets.sort_by(|a, b| a.0.cmp(&b.0))`) -/

/-- The sort relation used on interface entries: compare names with Rust's
string order. -/
def ethLe {β : Type} (a b : String × β) : Prop := strLe a.1 b.1 = true

instance {β : Type} : DecidableRel (@ethLe β) := fun a b => by
  unfold ethLe; infer_instance

/-- Stable sort of the interface entries by name; models the stable
`sort_by` of Rust (any two stable sorts under the same total preorder
agree). -/
def sortEths {β : Type} (l : List (String × β)) : List (String × β) :=
  List.insertionSort ethLe l

/-- Boolean check that an association list is sorted by key (adjacent
pairs in `strLe` order). -/
def sortedKeys {β : Type} : List (String × β) → Bool
  | [] => true
  | [_] => true
  | a :: b :: rest => strLe a.1 b.1 && sortedKeys (b :: rest)

/-! ## `NicOutput` conversions -/

/-- `NicOutput::to` — inward conversion to a full `Nic`; a present
nameserver list becomes a two-role map with an empty `search` list, and
`optional` is left unset. -/
def NicOutput.to (o : NicOutput) : Nic :=
  let nameservers :=
    match o.nameservers with
    | some nm => some [("addresses", nm), ("search", ([] : List String))]
    | none => none
  { addresses := o.addresses
    dhcp4 := o.dhcp4
    gateway4 := o.gateway4
    nameservers := nameservers
    optional := none }

/-- `NicOutput::from` — outward conversion from a `Nic`; only the
`"addresses"` role of the nameserver map survives.  (`from` is a reserved
word in Lean, hence the name.) -/
def NicOutput.fromNic (nic : Nic) : NicOutput :=
  let nameservers :=
    match nic.nameservers with
    | some nm => lookupKv nm "addresses"
    | none => none
  { addresses := nic.addresses
    dhcp4 := nic.dhcp4
    gateway4 := nic.gateway4
    nameservers := nameservers }

/-! ## Document mutations -/

/-- `NetplanYaml::set_interface`: replace the first entry with this name,
or append the new entry and re-sort. -/
def NetplanYaml.set_interface (doc : NetplanYaml) (ifname : String) (new_if : Nic) :
    NetplanYaml :=
  if hasKey doc.network.ethernets ifname then
    { doc with network.ethernets := replaceFirst doc.network.ethernets ifname new_if }
  else
    { doc with network.ethernets := sortEths (doc.network.ethernets ++ [(ifname, new_if)]) }

/-- `NetplanYaml::init_interface`: set the interface to an all-unset `Nic`. -/
def NetplanYaml.init_interface (doc : NetplanYaml) (ifname : String) : NetplanYaml :=
  doc.set_interface ifname ⟨none, none, none, none, none⟩

/-- One step of the ethernet-merging loop of `NetplanYaml::merge`. -/
def mergeStep (acc : List (String × Nic)) (p : String × Nic) : List (String × Nic) :=
  if hasKey acc p.1 then replaceFirst acc p.1 p.2 else acc ++ [p]

/-- `NetplanYaml::merge`: scalar fields are last-non-null-wins; incoming
interface entries replace same-named entries or are appended, then the
whole mapping is re-sorted; incoming bridges are merged only when the base
document already has a bridge mapping. -/
def NetplanYaml.merge (self newyml : NetplanYaml) : NetplanYaml :=
  let version := match newyml.network.version with
    | some v => some v
    | none => self.network.version
  let renderer := match newyml.network.renderer with
    | some r => some r
    | none => self.network.renderer
  let eths := sortEths (newyml.network.ethernets.foldl mergeStep self.network.ethernets)
  let bridges := match newyml.network.bridges with
    | none => self.network.bridges
    | some nb =>
      match self.network.bridges with
      | none => none
      | some sb => some (nb.foldl (fun acc p => upsert acc p.1 p.2) sb)
  { network := { version := version, renderer := renderer, ethernets := eths, bridges := bridges } }

/-- The per-interface mutation performed by `NetplanYaml::delete` once the
interface has been found: drop listed addresses, clear the gateway only on
exact match, and drop listed nameserver values from every role list that
contains them. -/
def deleteNic (ifs : Nic) (o : NicOutput) : Nic :=
  let ifs1 : Nic :=
    match o.addresses with
    | some addrs =>
      let newAddrs :=
        addrs.foldl (fun cur a => cur.map (fun l => l.filter (fun x => x != a)))
          ifs.addresses
      { ifs with addresses := newAddrs }
    | none => ifs
  let ifs2 : Nic :=
    if o.gateway4.isSome ∧ ifs1.gateway4 = o.gateway4 then
      { ifs1 with gateway4 := none }
    else ifs1
  match o.nameservers with
  | some addrs =>
    let newNs :=
      addrs.foldl
        (fun cur a =>
          cur.map (fun m =>
            m.map (fun p => (p.1, if p.2.contains a then p.2.filter (fun x => x != a) else p.2))))
        ifs2.nameservers
    { ifs2 with nameservers := newNs }
  | none => ifs2

/-- `NetplanYaml::delete`: fails with `InterfaceNotFound` when the named
interface is absent (the early return happens before any mutation, so the
document is untouched); otherwise rewrites the first entry of that name via
`deleteNic` and keeps the entry itself. -/
def NetplanYaml.delete (doc : NetplanYaml) (ifname : String) (o : NicOutput) :
    Except IfError NetplanYaml :=
  match lookupKv doc.network.ethernets ifname with
  | none => .error .interfaceNotFound
  | some ifs =>
    .ok { doc with network.ethernets :=
            replaceFirst doc.network.ethernets ifname (deleteNic ifs o) }

/-! ## Validation checks of the public `set` operation -/

/-- The address-validation loop of `set` (first invalid CIDR string wins).
`vn` abstracts `validate_ipnetworks` (external `ipnet` parser). -/
def checkAddrs (vn : String → Bool) (o : NicOutput) : Option IfError :=
  match o.addresses with
  | some addrs => (addrs.find? (fun a => !(vn a))).map .invalidAddress
  | none => none

/-- Does some interface other than `ifname` already carry a gateway?
(The scan inside `set`.) -/
def hasOtherGw (eths : List (String × Nic)) (ifname : String) : Bool :=
  eths.any (fun p => p.1 != ifname && p.2.gateway4.isSome)

/-- The gateway block of `set`: syntax check (`va` abstracts
`validate_ipaddress`), then the cross-interface uniqueness scan. -/
def checkGw (va : String → Bool) (eths : List (String × Nic)) (ifname : String)
    (o : NicOutput) : Option IfError :=
  match o.gateway4 with
  | some g =>
    if !(va g) then some (.invalidAddress g)
    else if hasOtherGw eths ifname then some .gatewayConflict
    else none
  | none => none

/-- The nameserver-validation loop of `set`. -/
def checkNs (va : String → Bool) (o : NicOutput) : Option IfError :=
  match o.nameservers with
  | some ns => (ns.find? (fun a => !(va a))).map .invalidAddress
  | none => none

/-- The DHCP-exclusivity check of `set`. -/
def checkDhcp (o : NicOutput) : Option IfError :=
  if o.dhcp4 = some true ∧ (o.addresses.isSome ∨ o.nameservers.isSome) then
    some .conflictingAddressMode
  else none

/-- The pure core of the public `set` operation (between the directory load
and the commit): run the four validation blocks in source order, then
overwrite the interface with the converted edit.  The returned document is
the one `apply` would commit. -/
def set (vn va : String → Bool) (netplan : NetplanYaml) (ifname : String)
    (o : NicOutput) : Except IfError NetplanYaml :=
  match checkAddrs vn o with
  | some e => .error e
  | none =>
  match checkGw va netplan.network.ethernets ifname o with
  | some e => .error e
  | none =>
  match checkNs va o with
  | some e => .error e
  | none =>
  match checkDhcp o with
  | some e => .error e
  | none => .ok (netplan.set_interface ifname o.to)

/-! ## YAML values and the derived (de)serializers

`Yaml` models a parsed `serde_yaml` value (text-level YAML syntax is the
external crate).  Decoders follow the derived `Deserialize` impls: only
`NetplanYaml` carries `deny_unknown_fields`; every other struct ignores
unknown keys; a missing or null `Option` field decodes to `none`; a missing
non-`Option` field is an error.  Decoder errors are strings, wrapped into
`IfError.malformedConfig` by the loader (as `anyhow!` does). -/

inductive Yaml where
  | null
  | bool (b : Bool)
  | num (n : Nat)
  | str (s : String)
  | arr (xs : List Yaml)
  | map (kvs : List (String × Yaml))

/-- Look a key up in a `Yaml.map` (any other shape has no fields). -/
def yFind (y : Yaml) (k : String) : Option Yaml :=
  match y with
  | .map kvs => lookupKv kvs k
  | _ => none

def getStr : Yaml → Except String String
  | .str s => .ok s
  | _ => .error "expected string"

def getBool : Yaml → Except String Bool
  | .bool b => .ok b
  | _ => .error "expected bool"

def getNat : Yaml → Except String Nat
  | .num n => .ok n
  | _ => .error "expected number"

def getStrList : Yaml → Except String (List String)
  | .arr xs => xs.mapM getStr
  | _ => .error "expected sequence"

/-- Decode an optional field: missing or null becomes `none`
(serde's handling of `Option` struct fields). -/
def optField {α : Type} (kvs : List (String × Yaml)) (k : String)
    (f : Yaml → Except String α) : Except String (Option α) :=
  match lookupKv kvs k with
  | none => .ok none
  | some .null => .ok none
  | some v => (f v).map some

/-- Decode a required field: missing is an error. -/
def reqField {α : Type} (kvs : List (String × Yaml)) (k : String)
    (f : Yaml → Except String α) : Except String α :=
  match lookupKv kvs k with
  | none => .error "missing field"
  | some v => f v

/-- Derived deserializer of `Nic` (no `deny_unknown_fields`: unknown keys
are ignored). -/
def decodeNic (y : Yaml) : Except String Nic :=
  match y with
  | .map kvs => do
    let addresses ← optField kvs "addresses" getStrList
    let dhcp4 ← optField kvs "dhcp4" getBool
    let gateway4 ← optField kvs "gateway4" getStr
    let nameservers ← optField kvs "nameservers" (fun v =>
      match v with
      | .map m => m.mapM (fun p => do pure (p.1, ← getStrList p.2))
      | _ => .error "expected map")
    let opt ← optField kvs "optional" getBool
    pure ⟨addresses, dhcp4, gateway4, nameservers, opt⟩
  | _ => .error "expected map"

/-- Derived deserializer of `Address` (unknown keys ignored; both fields
are `Option`s). -/
def decodeAddress (y : Yaml) : Except String Address :=
  match y with
  | .map kvs => do
    let search ← optField kvs "search" getStrList
    let addresses ← optField kvs "addresses" getStrList
    pure ⟨search, addresses⟩
  | _ => .error "expected map"

/-- Derived deserializer of `Bridge` (unknown keys ignored;
`interfaces`, `addresses`, `nameservers` required). -/
def decodeBridge (y : Yaml) : Except String Bridge :=
  match y with
  | .map kvs => do
    let interfaces ← reqField kvs "interfaces" getStrList
    let addresses ← reqField kvs "addresses" getStrList
    let gateway4 ← optField kvs "gateway4" getStr
    let nameservers ← reqField kvs "nameservers" decodeAddress
    pure ⟨interfaces, addresses, gateway4, nameservers⟩
  | _ => .error "expected map"

/-- Decode the `ethernets` map into a `Vec<(String, Nic)>` in document
order (`serde_as HashMap<_, _>`). -/
def decodeEthernets (y : Yaml) : Except String (List (String × Nic)) :=
  match y with
  | .map kvs => kvs.mapM (fun p => do pure (p.1, ← decodeNic p.2))
  | _ => .error "expected map"

/-- Decode the `bridges` map. -/
def decodeBridges (y : Yaml) : Except String (List (String × Bridge)) :=
  match y with
  | .map kvs => kvs.mapM (fun p => do pure (p.1, ← decodeBridge p.2))
  | _ => .error "expected map"

/-- Derived deserializer of `Network` (no `deny_unknown_fields`: unknown
keys inside the `network` block are ignored; `ethernets` is required). -/
def decodeNetwork (y : Yaml) : Except String Network :=
  match y with
  | .map kvs => do
    let version ← optField kvs "version" getNat
    let renderer ← optField kvs "renderer" getStr
    let ethernets ← reqField kvs "ethernets" decodeEthernets
    let bridges ← optField kvs "bridges" decodeBridges
    pure ⟨version, renderer, ethernets, bridges⟩
  | _ => .error "expected map"

/-- Derived deserializer of `NetplanYaml`, which carries
`#[serde(deny_unknown_fields)]`: any top-level key other than `network`
is rejected. -/
def decodeNetplanYaml (y : Yaml) : Except String NetplanYaml :=
  match y with
  | .map kvs =>
    if kvs.all (fun p => p.1 == "network") then do
      let network ← reqField kvs "network" decodeNetwork
      pure ⟨network⟩
    else .error "unknown field"
  | _ => .error "expected map"

/-! ### Serializers (`skip_serializing_if = "Option::is_none"` emitted
field by field; an `Option` field *without* the attribute serializes
`None` as `null`). -/

/-- A field segment that is present only when the option is set
(`skip_serializing_if = "Option::is_none"`). -/
def optSeg {α : Type} (k : String) (o : Option α) (f : α → Yaml) :
    List (String × Yaml) :=
  match o with
  | some x => [(k, f x)]
  | none => []

def strListY (l : List String) : Yaml := .arr (l.map .str)

/-- Serializer of `Nic`: every field carries the skip attribute. -/
def encodeNic (n : Nic) : Yaml :=
  .map (optSeg "addresses" n.addresses strListY ++
        optSeg "dhcp4" n.dhcp4 .bool ++
        optSeg "gateway4" n.gateway4 .str ++
        optSeg "nameservers" n.nameservers
          (fun m => .map (m.map (fun p => (p.1, strListY p.2)))) ++
        optSeg "optional" n.optional .bool)

/-- Serializer of `Address`: `search` carries the skip attribute,
`addresses` does **not** — a `None` is serialized as `null`. -/
def encodeAddress (a : Address) : Yaml :=
  .map (optSeg "search" a.search strListY ++
        [("addresses", match a.addresses with
                       | some l => strListY l
                       | none => Yaml.null)])

/-- Serializer of `Bridge`: only `gateway4` carries the skip attribute. -/
def encodeBridge (b : Bridge) : Yaml :=
  .map ([("interfaces", strListY b.interfaces),
         ("addresses", strListY b.addresses)] ++
        optSeg "gateway4" b.gateway4 .str ++
        [("nameservers", encodeAddress b.nameservers)])

/-- Serializer of `Network`: `version`, `renderer`, `bridges` carry the
skip attribute; `ethernets` is always emitted as a map in list order. -/
def encodeNetwork (n : Network) : Yaml :=
  .map (optSeg "version" n.version .num ++
        optSeg "renderer" n.renderer .str ++
        [("ethernets", .map (n.ethernets.map (fun p => (p.1, encodeNic p.2))))] ++
        optSeg "bridges" n.bridges
          (fun bs => .map (bs.map (fun p => (p.1, encodeBridge p.2)))))

/-- Serializer of the whole document. -/
def encodeNetplanYaml (d : NetplanYaml) : Yaml :=
  .map [("network", encodeNetwork d.network)]

/-! ## Directory loader (`load_netplan_yaml`) -/

/-- The folding loop of `load_netplan_yaml`, with the `Option` accumulator
of the Rust code.  Each file's (syntax-level parsed) content is decoded;
a decode failure aborts the whole load with that parse error; when the
list is exhausted an empty accumulator is the `ConfigNotFound` failure. -/
def loadAux : Option NetplanYaml → List Yaml → Except IfError NetplanYaml
  | none, [] => .error .configNotFound
  | some n, [] => .ok n
  | acc, y :: rest =>
    match decodeNetplanYaml y with
    | .error s => .error (.malformedConfig s)
    | .ok cfg =>
      loadAux (match acc with
               | some n => some (n.merge cfg)
               | none => some cfg) rest

/-- `load_netplan_yaml`: fold all documents of the configuration directory
(contents given in the loader's enumeration order) via `merge`. -/
def load_netplan_yaml (contents : List Yaml) : Except IfError NetplanYaml :=
  loadAux none contents

/-! ## The commit pipeline (`NetplanYaml::apply`)

The file system is modelled as two association lists keyed by file name:
the staging directory `/tmp` and the target directory.  `format!` path
comparison reduces to file-name comparison because the directory component
is constant within one `apply` run. -/

def DEFAULT_NETPLAN_YAML : String := "01-netcfg.yaml"

/-- File-system state: staging directory and target directory, each a map
from file name to (modelled) file content. -/
structure Fs where
  tmp : List (String × Yaml)
  target : List (String × Yaml)

/-- `fs::remove_file`: fails when the file does not exist. -/
def fsRemove (l : List (String × Yaml)) (k : String) :
    Except IfError (List (String × Yaml)) :=
  if hasKey l k then .ok (eraseKey l k) else .error (.ioError k)

/-- The primary output file name `apply` selects: the first enumerated
file, or the fixed default when the directory is empty. -/
def primaryName (files : List String) : String :=
  match files.head? with
  | some first => if first != DEFAULT_NETPLAN_YAML then first else DEFAULT_NETPLAN_YAML
  | none => DEFAULT_NETPLAN_YAML

/-- The secondary-file deletion loop of `apply`: remove every enumerated
file other than the primary, stopping at the first failure and exposing the
partial state reached (the pipeline is not transactional). -/
def removeOthers (primary : String) :
    List String → List (String × Yaml) → List (String × Yaml) × Option IfError
  | [], acc => (acc, none)
  | f :: rest, acc =>
    if f != primary then
      match fsRemove acc f with
      | .error e => (acc, some e)
      | .ok acc2 => removeOthers primary rest acc2
    else removeOthers primary rest acc

/-- `NetplanYaml::apply` up to (not including) the external
`netplan apply` subprocess, which does not touch the file system: write the
serialized document to the staging path, copy it over the primary target,
remove the staging file, then delete every other previously enumerated
file.  `files` is the enumeration `list_files` returned (the target
directory's file names in the loader's order).  A mid-pipeline failure
returns the partial state already reached together with the error. -/
def NetplanYaml.apply (doc : NetplanYaml) (files : List String) (fs : Fs) :
    Fs × Option IfError :=
  let primary := primaryName files
  let content := encodeNetplanYaml doc
  let tmp1 := upsert fs.tmp primary content
  match lookupKv tmp1 primary with
  | none => (⟨tmp1, fs.target⟩, some (.ioError primary))
  | some c =>
    let target2 := upsert fs.target primary c
    match fsRemove tmp1 primary with
    | .error e => (⟨tmp1, target2⟩, some e)
    | .ok tmp3 => (⟨tmp3, (removeOthers primary files target2).1⟩,
                   (removeOthers primary files target2).2)

/-- The public `set` operation's effect on the file system: a validation
failure happens before `apply`, leaving both directories untouched. -/
def setApply (vn va : String → Bool) (netplan : NetplanYaml) (ifname : String)
    (o : NicOutput) (files : List String) (fs : Fs) : Fs × Option IfError :=
  match set vn va netplan ifname o with
  | .error e => (fs, some e)
  | .ok doc => doc.apply files fs

/-- The public `delete` operation's effect on the file system: an
`InterfaceNotFound` failure happens before `apply`, leaving both
directories untouched. -/
def deleteApply (netplan : NetplanYaml) (ifname : String) (o : NicOutput)
    (files : List String) (fs : Fs) : Fs × Option IfError :=
  match netplan.delete ifname o with
  | .error e => (fs, some e)
  | .ok doc => doc.apply files fs

/-! ## Concrete values used by witnesses and counterexamples -/

/-- An all-unset interface entry. -/
def nicE : Nic := ⟨none, none, none, none, none⟩

/-- A document with an empty interface mapping. -/
def emptyDoc : NetplanYaml := ⟨⟨none, none, [], none⟩⟩

/-- A document whose `eth0` already owns the gateway. -/
def docGw : NetplanYaml :=
  ⟨⟨none, none, [("eth0", ⟨none, none, some "10.0.0.1", none, none⟩), ("eth1", nicE)], none⟩⟩

/-- A document whose interface mapping is *not* sorted by name — exactly
what one file with keys in the order `b`, `a` loads to. -/
def docBA : NetplanYaml := ⟨⟨none, none, [("b", nicE), ("a", nicE)], none⟩⟩

/-- The YAML value of a single configuration file listing `b` before `a`. -/
def yamlBA : Yaml :=
  .map [("network", .map [("ethernets", .map [("b", .map []), ("a", .map [])])])]

/-- A concrete external interface view. -/
def o1 : NicOutput := ⟨some ["10.0.0.1/24"], some false, some "10.0.0.254", some ["8.8.8.8"]⟩

/-- A validator accepting everything (stands in for the external IP
parsers at witness inputs). -/
def allOk : String → Bool := fun _ => true

/-- An empty file-system state. -/
def fsEmpty : Fs := ⟨[], []⟩

/-- A fully populated interface entry, used to exercise `delete`. -/
def nicFull : Nic :=
  ⟨some ["1.1.1.1/24", "2.2.2.2/24"], none, some "9.9.9.9",
   some [("addresses", ["8.8.8.8", "8.8.4.4"]), ("search", [])], none⟩

/-- A document holding `nicFull` under `eth0`. -/
def docFull : NetplanYaml := ⟨⟨none, none, [("eth0", nicFull)], none⟩⟩

/-- A document with one bridge whose nameserver block is entirely unset. -/
def docBridge : NetplanYaml :=
  ⟨⟨none, none, [], some [("br0", ⟨["eth0"], ["10.0.0.2/24"], none, ⟨none, none⟩⟩)]⟩⟩

/-- A delete request against `docFull`: one address, the matching gateway,
one nameserver value. -/
def o2 : NicOutput := ⟨some ["1.1.1.1/24"], none, some "9.9.9.9", some ["8.8.4.4"]⟩

/-! ## Helper lemmas: the string order -/

theorem strLeAux_cons_iff (x y : Char) (xs ys : List Char) :
    strLeAux (x :: xs) (y :: ys) = true ↔
      (x.toNat < y.toNat ∨ (x.toNat = y.toNat ∧ strLeAux xs ys = true)) := by
  simp only [strLeAux]
  by_cases h1 : x.toNat < y.toNat
  · simp [h1]
  · by_cases h2 : y.toNat < x.toNat
    · rw [if_neg h1, if_pos h2]
      simp only [Bool.false_eq_true, false_iff]
      rintro (h | ⟨h, _⟩) <;> omega
    · have hxy : x.toNat = y.toNat := by omega
      simp [h1, h2, hxy]

theorem strLeAux_total (a b : List Char) :
    strLeAux a b = true ∨ strLeAux b a = true := by
  induction a generalizing b with
  | nil => left; rfl
  | cons x xs ih =>
    cases b with
    | nil => right; rfl
    | cons y ys =>
      rcases Nat.lt_trichotomy x.toNat y.toNat with h | h | h
      · left; rw [strLeAux_cons_iff]; exact Or.inl h
      · rcases ih ys with h' | h'
        · left; rw [strLeAux_cons_iff]; exact Or.inr ⟨h, h'⟩
        · right; rw [strLeAux_cons_iff]; exact Or.inr ⟨h.symm, h'⟩
      · right; rw [strLeAux_cons_iff]; exact Or.inl h

theorem strLeAux_trans (a b c : List Char) (hab : strLeAux a b = true)
    (hbc : strLeAux b c = true) : strLeAux a c = true := by
  induction a generalizing b c with
  | nil => rfl
  | cons x xs ih =>
    cases b with
    | nil => simp [strLeAux] at hab
    | cons y ys =>
      cases c with
      | nil => simp [strLeAux] at hbc
      | cons z zs =>
        rw [strLeAux_cons_iff] at hab hbc ⊢
        rcases hab with h1 | ⟨h1, h1'⟩ <;> rcases hbc with h2 | ⟨h2, h2'⟩
        · exact Or.inl (h1.trans h2)
        · exact Or.inl (h2 ▸ h1)
        · exact Or.inl (h1 ▸ h2)
        · exact Or.inr ⟨h1.trans h2, ih ys zs h1' h2'⟩

instance {β : Type} : IsTotal (String × β) ethLe :=
  ⟨fun a b => strLeAux_total a.1.data b.1.data⟩

instance {β : Type} : IsTrans (String × β) ethLe :=
  ⟨fun _ _ _ hab hbc => strLeAux_trans _ _ _ hab hbc⟩

theorem sortedKeys_of_pairwise {β : Type} (l : List (String × β))
    (h : l.Pairwise ethLe) : sortedKeys l = true := by
  induction l with
  | nil => rfl
  | cons a l ih =>
    cases l with
    | nil => rfl
    | cons b rest =>
      rw [List.pairwise_cons] at h
      have hb : ethLe a b := h.1 b (by simp)
      simp only [sortedKeys, Bool.and_eq_true]
      exact ⟨hb, ih h.2⟩

theorem sortedKeys_sortEths {β : Type} (l : List (String × β)) :
    sortedKeys (sortEths l) = true :=
  sortedKeys_of_pairwise _ (List.sorted_insertionSort ethLe l)

theorem sortEths_perm {β : Type} (l : List (String × β)) :
    (sortEths l).Perm l :=
  List.perm_insertionSort ethLe l

/-! ## Helper lemmas: classifying the validation checks of `set` -/

theorem checkAddrs_classify (vn : String → Bool) (o : NicOutput) (e : IfError)
    (h : checkAddrs vn o = some e) : ∃ v, e = .invalidAddress v := by
  unfold checkAddrs at h
  cases ho : o.addresses with
  | none => rw [ho] at h; cases h
  | some addrs =>
    rw [ho] at h
    rcases Option.map_eq_some'.mp h with ⟨v, _, hv⟩
    exact ⟨v, hv.symm⟩

theorem checkGw_classify (va : String → Bool) (eths : List (String × Nic))
    (ifname : String) (o : NicOutput) (e : IfError)
    (h : checkGw va eths ifname o = some e) :
    (∃ v, e = .invalidAddress v) ∨ e = .gatewayConflict := by
  unfold checkGw at h
  cases ho : o.gateway4 with
  | none => rw [ho] at h; cases h
  | some g =>
    rw [ho] at h
    by_cases hv : va g
    · right
      simp only [hv, Bool.not_true, Bool.false_eq_true, if_false] at h
      by_cases hg : hasOtherGw eths ifname
      · simp only [hg, if_true] at h; exact (Option.some_inj.mp h).symm
      · simp only [hg, if_false] at h; cases h
    · left
      simp only [Bool.not_eq_true] at hv
      simp only [hv, Bool.not_false, if_true] at h
      exact ⟨g, (Option.some_inj.mp h).symm⟩

theorem checkNs_classify (va : String → Bool) (o : NicOutput) (e : IfError)
    (h : checkNs va o = some e) : ∃ v, e = .invalidAddress v := by
  unfold checkNs at h
  cases ho : o.nameservers with
  | none => rw [ho] at h; cases h
  | some ns =>
    rw [ho] at h
    rcases Option.map_eq_some'.mp h with ⟨v, _, hv⟩
    exact ⟨v, hv.symm⟩

theorem checkDhcp_classify (o : NicOutput) (e : IfError)
    (h : checkDhcp o = some e) : e = .conflictingAddressMode := by
  unfold checkDhcp at h
  by_cases hc : o.dhcp4 = some true ∧ (o.addresses.isSome ∨ o.nameservers.isSome)
  · simp only [hc, if_true] at h; exact (Option.some_inj.mp h).symm
  · simp only [hc, if_false] at h; cases h

theorem checkDhcp_none (o : NicOutput) (h : o.dhcp4 ≠ some true) :
    checkDhcp o = none := by
  unfold checkDhcp
  rw [if_neg]
  rintro ⟨h1, _⟩
  exact h h1

theorem hasOtherGw_iff (eths : List (String × Nic)) (ifname : String) :
    hasOtherGw eths ifname = true ↔
      ∃ p ∈ eths, p.1 ≠ ifname ∧ p.2.gateway4 ≠ none := by
  simp [hasOtherGw, List.any_eq_true, Bool.and_eq_true, bne_iff_ne,
    Option.isSome_iff_ne_none]

/-! ## Claim theorems -/

/-- C9: converting an `InterfaceView` (`NicOutput`) inward to an
`InterfaceConfig` (`Nic`) via `NicOutput::to` and back outward via
`NicOutput::from` yields the view unchanged: addresses, dhcp4 and gateway4
are copied, the flattened nameserver list round-trips exactly, the
search-domain list introduced on the inward path is exactly the empty
list, and an absent nameserver block stays absent in both directions. -/
theorem C9_view_roundtrip (o : NicOutput) :
    NicOutput.fromNic o.to = o ∧
    (∀ ns, o.nameservers = some ns →
      o.to.nameservers = some [("addresses", ns), ("search", ([] : List String))]) ∧
    (o.nameservers = none → o.to.nameservers = none) ∧
    (∀ nic : Nic, nic.nameservers = none → (NicOutput.fromNic nic).nameservers = none) := by
  obtain ⟨a, d, g, ns⟩ := o
  refine ⟨?_, ?_, ?_, ?_⟩
  · cases ns <;> simp [NicOutput.to, NicOutput.fromNic, lookupKv]
  · intro l hl
    cases ns with
    | none => cases hl
    | some nm => cases hl; simp [NicOutput.to]
  · intro h
    cases ns with
    | none => simp [NicOutput.to]
    | some nm => cases h
  · intro nic h
    simp [NicOutput.fromNic, h]

/-- Witness for C9 at the concrete view `o1`. -/
theorem C9_view_roundtrip_witness :
    NicOutput.fromNic (NicOutput.to o1) = o1 ∧
    (NicOutput.to o1).nameservers =
      some [("addresses", ["8.8.8.8"]), ("search", ([] : List String))] :=
  ⟨(C9_view_roundtrip o1).1, (C9_view_roundtrip o1).2.1 ["8.8.8.8"] rfl⟩

/-- C1: if the proposed edit carries a gateway for interface X (and the
gateway and address strings pass IP validation) while some interface other
than X in the merged document already has a gateway, `set` fails with
`GatewayConflict` and the file-system state is left untouched; when no
other interface has a gateway (including when X itself already owns one),
the gateway check passes, so `set` never fails with `GatewayConflict`. -/
theorem C1_gateway_conflict (vn va : String → Bool) (doc : NetplanYaml)
    (ifname : String) (o : NicOutput) (g : String) (files : List String) (fs : Fs)
    (haddr : checkAddrs vn o = none) (hg : o.gateway4 = some g) (hva : va g = true) :
    ((∃ p ∈ doc.network.ethernets, p.1 ≠ ifname ∧ p.2.gateway4 ≠ none) →
      set vn va doc ifname o = .error .gatewayConflict ∧
      setApply vn va doc ifname o files fs = (fs, some .gatewayConflict)) ∧
    ((∀ p ∈ doc.network.ethernets, p.1 ≠ ifname → p.2.gateway4 = none) →
      set vn va doc ifname o ≠ .error .gatewayConflict) := by
  constructor
  · intro hex
    have hgw : checkGw va doc.network.ethernets ifname o = some .gatewayConflict := by
      have hb : hasOtherGw doc.network.ethernets ifname = true :=
        (hasOtherGw_iff _ _).mpr hex
      simp [checkGw, hg, hva, hb]
    have hset : set vn va doc ifname o = .error .gatewayConflict := by
      simp only [set, haddr, hgw]
    exact ⟨hset, by simp only [setApply, hset]⟩
  · intro hnone hcontra
    have hgwf : hasOtherGw doc.network.ethernets ifname = false := by
      rw [Bool.eq_false_iff]
      intro htrue
      rcases (hasOtherGw_iff _ _).mp htrue with ⟨p, hp, hne, hgwp⟩
      exact hgwp (hnone p hp hne)
    have hgw : checkGw va doc.network.ethernets ifname o = none := by
      simp [checkGw, hg, hva, hgwf]
    simp only [set, haddr, hgw] at hcontra
    cases hns : checkNs va o with
    | some e =>
      simp only [hns] at hcontra
      rcases checkNs_classify va o e hns with ⟨v, rfl⟩
      simp at hcontra
    | none =>
      cases hd : checkDhcp o with
      | some e =>
        simp only [hns, hd] at hcontra
        have he := checkDhcp_classify o e hd
        subst he
        simp at hcontra
      | none => simp [hns, hd] at hcontra

/-- Witness for C1: `eth0` of `docGw` owns the gateway, so giving `eth1` a
gateway fails and touches nothing. -/
theorem C1_gateway_conflict_witness :
    set allOk allOk docGw "eth1" ⟨none, none, some "10.0.0.2", none⟩ =
      .error .gatewayConflict ∧
    setApply allOk allOk docGw "eth1" ⟨none, none, some "10.0.0.2", none⟩ [] fsEmpty =
      (fsEmpty, some .gatewayConflict) :=
  (C1_gateway_conflict allOk allOk docGw "eth1" ⟨none, none, some "10.0.0.2", none⟩
      "10.0.0.2" [] fsEmpty rfl rfl rfl).1
    ⟨("eth0", ⟨none, none, some "10.0.0.1", none, none⟩), by decide, by decide, by decide⟩

/-- C2: an edit requesting dhcp4 true together with a static address list
or a nameserver list fails with `ConflictingAddressMode` (provided the
earlier validation blocks pass, which otherwise fail first with their own
errors) and performs no write; an edit whose dhcp4 is absent or false is
never rejected by this check. -/
theorem C2_dhcp_exclusive (vn va : String → Bool) (doc : NetplanYaml)
    (ifname : String) (o : NicOutput) (files : List String) (fs : Fs) :
    (o.dhcp4 = some true → (o.addresses.isSome ∨ o.nameservers.isSome) →
      checkAddrs vn o = none → checkGw va doc.network.ethernets ifname o = none →
      checkNs va o = none →
      set vn va doc ifname o = .error .conflictingAddressMode ∧
      setApply vn va doc ifname o files fs = (fs, some .conflictingAddressMode)) ∧
    (o.dhcp4 ≠ some true → set vn va doc ifname o ≠ .error .conflictingAddressMode) := by
  constructor
  · intro hd hsup haddr hgw hns
    have hdh : checkDhcp o = some .conflictingAddressMode := by
      unfold checkDhcp
      rw [if_pos ⟨hd, hsup⟩]
    have hset : set vn va doc ifname o = .error .conflictingAddressMode := by
      simp only [set, haddr, hgw, hns, hdh]
    exact ⟨hset, by simp only [setApply, hset]⟩
  · intro hd hcontra
    have hdh := checkDhcp_none o hd
    simp only [set] at hcontra
    cases ha : checkAddrs vn o with
    | some e =>
      simp only [ha] at hcontra
      rcases checkAddrs_classify vn o e ha with ⟨v, rfl⟩
      simp at hcontra
    | none =>
      simp only [ha] at hcontra
      cases hg : checkGw va doc.network.ethernets ifname o with
      | some e =>
        simp only [hg] at hcontra
        rcases checkGw_classify va _ ifname o e hg with ⟨v, rfl⟩ | rfl <;> simp at hcontra
      | none =>
        simp only [hg] at hcontra
        cases hn : checkNs va o with
        | some e =>
          simp only [hn] at hcontra
          rcases checkNs_classify va o e hn with ⟨v, rfl⟩
          simp at hcontra
        | none => simp [hn, hdh] at hcontra

/-- Witness for C2: dhcp4 plus a static address list on `eth0`. -/
theorem C2_dhcp_exclusive_witness :
    set allOk allOk docGw "eth0" ⟨some ["10.0.0.5/24"], some true, none, none⟩ =
      .error .conflictingAddressMode ∧
    setApply allOk allOk docGw "eth0" ⟨some ["10.0.0.5/24"], some true, none, none⟩ [] fsEmpty =
      (fsEmpty, some .conflictingAddressMode) :=
  (C2_dhcp_exclusive allOk allOk docGw "eth0"
      ⟨some ["10.0.0.5/24"], some true, none, none⟩ [] fsEmpty).1
    rfl (Or.inl rfl) rfl rfl rfl

/-- C3 counterexample: `docBA` is exactly what a single configuration file
with interface keys in the order `b`, `a` parses to (loaded documents may
arrive unsorted), yet replacing the existing entry `b` via
`set_interface` leaves the mapping unsorted — the claim that every
mutation re-sorts is false (`set_interface` only sorts on insertion, and
`delete` never sorts). -/
theorem C3_sorted_counterexample :
    decodeNetplanYaml yamlBA = .ok docBA ∧
    sortedKeys ((docBA.set_interface "b" nicE).network.ethernets) = false :=
  ⟨rfl, rfl⟩

/-- C3 (amended): `merge` always leaves the interface mapping sorted by
name, and `set_interface` (hence `init_interface`) leaves it sorted
whenever the name was not already present — replacing an existing entry
preserves the prior order instead, and `delete` never re-sorts; in
particular setting `zzz` then `aaa` on an initially empty mapping lists
`aaa` before `zzz`. -/
theorem C3_sorted_amended :
    (∀ a b : NetplanYaml, sortedKeys ((a.merge b).network.ethernets) = true) ∧
    (∀ (doc : NetplanYaml) (name : String) (nic : Nic),
      hasKey doc.network.ethernets name = false →
      sortedKeys ((doc.set_interface name nic).network.ethernets) = true) ∧
    ((emptyDoc.set_interface "zzz" nicE).set_interface "aaa" nicE).network.ethernets.map
        Prod.fst = ["aaa", "zzz"] := by
  refine ⟨?_, ?_, ?_⟩
  · intro a b
    exact sortedKeys_sortEths _
  · intro doc name nic h
    unfold NetplanYaml.set_interface
    rw [if_neg (by simp [h])]
    exact sortedKeys_sortEths _
  · rfl

/-- Witness for the amended C3 at concrete inputs (the merge part and the
insert part, starting from the unsorted `docBA`). -/
theorem C3_sorted_amended_witness :
    sortedKeys ((docBA.merge docBA).network.ethernets) = true ∧
    sortedKeys ((docBA.set_interface "c" nicE).network.ethernets) = true :=
  ⟨C3_sorted_amended.1 docBA docBA, C3_sorted_amended.2.1 docBA "c" nicE (by decide)⟩

/-! ## Helper lemmas: interface names under `merge` -/

theorem replaceFirst_map_fst {β : Type} (l : List (String × β)) (k : String) (v : β) :
    (replaceFirst l k v).map Prod.fst = l.map Prod.fst := by
  induction l with
  | nil => rfl
  | cons p rest ih =>
    obtain ⟨pk, pv⟩ := p
    by_cases h : pk = k <;> simp [replaceFirst, h, ih]

theorem hasKey_iff {β : Type} (l : List (String × β)) (k : String) :
    hasKey l k = true ↔ k ∈ l.map Prod.fst := by
  simp only [hasKey, List.any_eq_true, List.mem_map, beq_iff_eq]

theorem mergeStep_map_fst (acc : List (String × Nic)) (p : String × Nic) :
    (mergeStep acc p).map Prod.fst =
      if p.1 ∈ acc.map Prod.fst then acc.map Prod.fst
      else acc.map Prod.fst ++ [p.1] := by
  unfold mergeStep
  by_cases h : hasKey acc p.1 = true
  · rw [if_pos h, replaceFirst_map_fst, if_pos ((hasKey_iff _ _).mp h)]
  · rw [if_neg h, if_neg (fun hm => h ((hasKey_iff _ _).mpr hm))]
    simp

theorem foldl_mergeStep_names (inc self : List (String × Nic))
    (hself : (self.map Prod.fst).Nodup) :
    (∀ n, n ∈ (inc.foldl mergeStep self).map Prod.fst ↔
        n ∈ self.map Prod.fst ∨ n ∈ inc.map Prod.fst) ∧
    ((inc.foldl mergeStep self).map Prod.fst).Nodup := by
  induction inc generalizing self with
  | nil => simp [hself]
  | cons p rest ih =>
    have hstep_mem : ∀ n, n ∈ (mergeStep self p).map Prod.fst ↔
        n ∈ self.map Prod.fst ∨ n = p.1 := by
      intro n
      rw [mergeStep_map_fst]
      by_cases h : p.1 ∈ self.map Prod.fst
      · rw [if_pos h]
        constructor
        · exact Or.inl
        · rintro (hn | rfl)
          · exact hn
          · exact h
      · rw [if_neg h]
        simp
    have hstep_nodup : ((mergeStep self p).map Prod.fst).Nodup := by
      rw [mergeStep_map_fst]
      by_cases h : p.1 ∈ self.map Prod.fst
      · rw [if_pos h]
        exact hself
      · rw [if_neg h]
        simp [List.nodup_append, hself, h]
    obtain ⟨ihm, ihn⟩ := ih (mergeStep self p) hstep_nodup
    refine ⟨?_, ?_⟩
    · intro n
      rw [List.foldl_cons, ihm n]
      rw [hstep_mem n]
      simp only [List.map_cons, List.mem_cons]
      tauto
    · rw [List.foldl_cons]
      exact ihn

/-- C10: for two documents each with unique interface names, the merged
document's interface-name list holds exactly the union of the two name
sets, each name exactly once: merging never removes an entry, an incoming
name already present replaces that entry, and a new name is appended
(before the final re-sort, which only permutes). -/
theorem C10_merge_names (a b : NetplanYaml)
    (ha : (a.network.ethernets.map Prod.fst).Nodup)
    (_hb : (b.network.ethernets.map Prod.fst).Nodup) :
    (∀ n, n ∈ (a.merge b).network.ethernets.map Prod.fst ↔
        n ∈ a.network.ethernets.map Prod.fst ∨ n ∈ b.network.ethernets.map Prod.fst) ∧
    ((a.merge b).network.ethernets.map Prod.fst).Nodup := by
  have hperm : ((a.merge b).network.ethernets.map Prod.fst).Perm
      ((b.network.ethernets.foldl mergeStep a.network.ethernets).map Prod.fst) := by
    have heq : (a.merge b).network.ethernets =
        sortEths (b.network.ethernets.foldl mergeStep a.network.ethernets) := rfl
    rw [heq]
    exact (sortEths_perm _).map Prod.fst
  obtain ⟨hm, hn⟩ := foldl_mergeStep_names b.network.ethernets a.network.ethernets ha
  constructor
  · intro n
    rw [hperm.mem_iff, hm n]
  · exact hperm.nodup_iff.mpr hn

/-- Witness for C10: merging `docBA` (names `b`, `a`) with `docGw` (names
`eth0`, `eth1`). -/
theorem C10_merge_names_witness :
    ("eth0" ∈ (docBA.merge docGw).network.ethernets.map Prod.fst) ∧
    ((docBA.merge docGw).network.ethernets.map Prod.fst).Nodup :=
  ⟨((C10_merge_names docBA docGw (by decide) (by decide)).1 "eth0").mpr
      (Or.inr (by decide)),
   (C10_merge_names docBA docGw (by decide) (by decide)).2⟩

/-! ## Helper lemmas: the value-removal folds of `delete` -/

theorem filter_ne_filter (a : String) (rest : List String) (l : List String) :
    (l.filter (fun x => x != a)).filter (fun x => !(rest.contains x))
      = l.filter (fun x => !((a :: rest).contains x)) := by
  rw [List.filter_filter]
  apply List.filter_congr
  intro x _
  simp only [List.contains_cons, Bool.not_or, bne, Bool.and_comm]

theorem guard_filter_eq (a : String) (rest : List String) (v : List String) :
    (if v.contains a then v.filter (fun x => x != a) else v).filter
        (fun x => !(rest.contains x))
      = v.filter (fun x => !((a :: rest).contains x)) := by
  by_cases h : v.contains a = true
  · rw [if_pos h]
    exact filter_ne_filter a rest v
  · rw [if_neg h]
    apply List.filter_congr
    intro x hx
    have hxa : (x == a) = false := by
      rw [beq_eq_false_iff_ne]
      rintro rfl
      exact h (by simpa [List.contains] using List.elem_iff.mpr hx)
    simp only [List.contains_cons, Bool.not_or, hxa, Bool.not_false, Bool.true_and]

theorem fold_addrs_eq (addrs : List String) (cur : Option (List String)) :
    addrs.foldl (fun cur a => cur.map (fun l => l.filter (fun x => x != a))) cur
      = cur.map (fun l => l.filter (fun x => !(addrs.contains x))) := by
  induction addrs generalizing cur with
  | nil => cases cur <;> simp
  | cons a rest ih =>
    rw [List.foldl_cons, ih]
    cases cur with
    | none => rfl
    | some l => exact congrArg some (filter_ne_filter a rest l)

theorem fold_ns_eq (ns : List String) (cur : Option (List (String × List String))) :
    ns.foldl (fun cur a => cur.map (fun m => m.map (fun p =>
        (p.1, if p.2.contains a then p.2.filter (fun x => x != a) else p.2)))) cur
      = cur.map (fun m => m.map (fun p =>
          (p.1, p.2.filter (fun x => !(ns.contains x))))) := by
  induction ns generalizing cur with
  | nil =>
    cases cur with
    | none => rfl
    | some m => simp
  | cons a rest ih =>
    rw [List.foldl_cons, ih]
    cases cur with
    | none => rfl
    | some m =>
      simp only [Option.map_some', List.map_map, Option.some.injEq]
      apply List.map_congr_left
      intro p _
      simp only [Function.comp_apply]
      exact congrArg (Prod.mk p.1) (guard_filter_eq a rest p.2)

/-- `deleteNic` computed field by field: addresses and nameserver role
lists are filtered down by the supplied value lists, the gateway is
cleared exactly on a full match, `dhcp4` and `optional` are untouched. -/
theorem deleteNic_eq (ifs : Nic) (o : NicOutput) :
    deleteNic ifs o =
      { addresses := match o.addresses with
          | some addrs => ifs.addresses.map (fun l => l.filter (fun x => !(addrs.contains x)))
          | none => ifs.addresses
        dhcp4 := ifs.dhcp4
        gateway4 := if o.gateway4.isSome ∧ ifs.gateway4 = o.gateway4 then none
                    else ifs.gateway4
        nameservers := match o.nameservers with
          | some ns => ifs.nameservers.map (fun m => m.map (fun p =>
              (p.1, p.2.filter (fun x => !(ns.contains x)))))
          | none => ifs.nameservers
        optional := ifs.optional } := by
  unfold deleteNic
  cases ho : o.addresses <;> cases hn : o.nameservers <;>
    simp only [ho, hn] <;>
    first
      | (rw [fold_addrs_eq, fold_ns_eq]
         by_cases hgc : o.gateway4.isSome ∧ ifs.gateway4 = o.gateway4
         · rw [if_pos hgc, if_pos hgc]
         · rw [if_neg hgc, if_neg hgc])
      | (rw [fold_ns_eq]
         by_cases hgc : o.gateway4.isSome ∧ ifs.gateway4 = o.gateway4
         · rw [if_pos hgc, if_pos hgc]
         · rw [if_neg hgc, if_neg hgc])
      | (rw [fold_addrs_eq]
         by_cases hgc : o.gateway4.isSome ∧ ifs.gateway4 = o.gateway4
         · rw [if_pos hgc, if_pos hgc]
         · rw [if_neg hgc, if_neg hgc])
      | (by_cases hgc : o.gateway4.isSome ∧ ifs.gateway4 = o.gateway4
         · rw [if_pos hgc, if_pos hgc]
         · rw [if_neg hgc, if_neg hgc])

theorem lookupKv_replaceFirst_self {β : Type} (l : List (String × β)) (k : String)
    (v : β) (h : lookupKv l k ≠ none) :
    lookupKv (replaceFirst l k v) k = some v := by
  induction l with
  | nil => simp [lookupKv] at h
  | cons p rest ih =>
    obtain ⟨pk, pv⟩ := p
    by_cases hpk : pk = k
    · subst hpk
      simp [replaceFirst, lookupKv]
    · simp only [replaceFirst, lookupKv, hpk, if_false] at h ⊢
      exact ih h

/-- C5: `delete` fails with `InterfaceNotFound` when the named interface
is absent (leaving document and disk untouched); otherwise it keeps every
interface entry (only rewriting the named one) and, in the rewritten
entry, removes each listed address value, clears the gateway exactly when
the supplied gateway equals the current one, and removes each listed
nameserver value from whichever role list contains it. -/
theorem C5_delete (doc : NetplanYaml) (ifname : String) (o : NicOutput)
    (files : List String) (fs : Fs) :
    (lookupKv doc.network.ethernets ifname = none →
      doc.delete ifname o = .error .interfaceNotFound ∧
      deleteApply doc ifname o files fs = (fs, some .interfaceNotFound)) ∧
    (∀ ifs, lookupKv doc.network.ethernets ifname = some ifs →
      ∃ doc', doc.delete ifname o = .ok doc' ∧
        doc'.network.ethernets.map Prod.fst = doc.network.ethernets.map Prod.fst ∧
        lookupKv doc'.network.ethernets ifname = some (deleteNic ifs o) ∧
        (deleteNic ifs o).addresses = (match o.addresses with
          | some addrs => ifs.addresses.map (fun l => l.filter (fun x => !(addrs.contains x)))
          | none => ifs.addresses) ∧
        (deleteNic ifs o).gateway4 = (if o.gateway4.isSome ∧ ifs.gateway4 = o.gateway4
          then none else ifs.gateway4) ∧
        (deleteNic ifs o).nameservers = (match o.nameservers with
          | some ns => ifs.nameservers.map (fun m => m.map (fun p =>
              (p.1, p.2.filter (fun x => !(ns.contains x)))))
          | none => ifs.nameservers)) := by
  constructor
  · intro h
    have hdel : doc.delete ifname o = .error .interfaceNotFound := by
      simp only [NetplanYaml.delete, h]
    exact ⟨hdel, by simp only [deleteApply, hdel]⟩
  · intro ifs h
    refine ⟨⟨{ doc.network with ethernets := replaceFirst doc.network.ethernets ifname (deleteNic ifs o) }⟩, ?_, ?_, ?_, ?_, ?_, ?_⟩
    · simp only [NetplanYaml.delete, h]
    · exact replaceFirst_map_fst _ _ _
    · exact lookupKv_replaceFirst_self _ _ _ (by rw [h]; exact Option.some_ne_none ifs)
    · rw [deleteNic_eq]
    · rw [deleteNic_eq]
    · rw [deleteNic_eq]

/-- Witness for C5: deleting from the absent `nope` fails; deleting `o2`
from `eth0` of `docFull` keeps the entry. -/
theorem C5_delete_witness :
    docFull.delete "nope" ⟨none, none, none, none⟩ = .error .interfaceNotFound ∧
    ∃ doc', docFull.delete "eth0" o2 = .ok doc' ∧
      doc'.network.ethernets.map Prod.fst = ["eth0"] := by
  constructor
  · exact ((C5_delete docFull "nope" ⟨none, none, none, none⟩ [] fsEmpty).1 rfl).1
  · obtain ⟨doc', h1, h2, -⟩ := (C5_delete docFull "eth0" o2 [] fsEmpty).2 nicFull rfl
    exact ⟨doc', h1, h2.trans rfl⟩

/-! ## Helper lemmas: schema decoding -/

theorem lookupKv_append_single {β : Type} (kvs : List (String × β)) (k key : String)
    (v : β) (h : key ≠ k) :
    lookupKv (kvs ++ [(k, v)]) key = lookupKv kvs key := by
  induction kvs with
  | nil => simp [lookupKv, Ne.symm h]
  | cons p rest ih =>
    obtain ⟨pk, pv⟩ := p
    by_cases hpk : pk = key <;> simp [lookupKv, hpk, ih]

/-- C4 counterexample: an unknown key inside the `network` block is
silently ignored (the parse succeeds), because only the top-level
`NetplanYaml` struct carries `deny_unknown_fields` — refuting "unknown
keys are rejected at every nesting level". -/
theorem C4_strict_counterexample :
    decodeNetplanYaml (.map [("network", .map [("ethernets", .map []), ("bogus", .null)])])
      = .ok ⟨⟨none, none, [], none⟩⟩ :=
  rfl

/-- C4 (amended): parsing is strict at the top level only — any top-level
key other than `network` fails the parse — while unknown keys inside the
`network` block, inside an interface entry, and inside a bridge entry are
ignored, not rejected.  (Syntax-level failures are the external YAML
parser's and are outside the embedding.) -/
theorem C4_strict_amended :
    (∀ kvs, (∃ p ∈ kvs, p.1 ≠ "network") →
      decodeNetplanYaml (.map kvs) = .error "unknown field") ∧
    (∀ kvs k v, k ∉ (["version", "renderer", "ethernets", "bridges"] : List String) →
      decodeNetwork (.map (kvs ++ [(k, v)])) = decodeNetwork (.map kvs)) ∧
    (∀ kvs k v,
      k ∉ (["addresses", "dhcp4", "gateway4", "nameservers", "optional"] : List String) →
      decodeNic (.map (kvs ++ [(k, v)])) = decodeNic (.map kvs)) ∧
    (∀ kvs k v,
      k ∉ (["interfaces", "addresses", "gateway4", "nameservers"] : List String) →
      decodeBridge (.map (kvs ++ [(k, v)])) = decodeBridge (.map kvs)) := by
  refine ⟨?_, ?_, ?_, ?_⟩
  · rintro kvs ⟨p, hp, hne⟩
    have hall : kvs.all (fun p => p.1 == "network") = false := by
      rw [List.all_eq_false]
      exact ⟨p, hp, by simp [hne]⟩
    simp [decodeNetplanYaml, hall]
  · intro kvs k v hk
    have h1 := lookupKv_append_single kvs k "version" v
      (fun he => hk (by rw [← he]; simp))
    have h2 := lookupKv_append_single kvs k "renderer" v
      (fun he => hk (by rw [← he]; simp))
    have h3 := lookupKv_append_single kvs k "ethernets" v
      (fun he => hk (by rw [← he]; simp))
    have h4 := lookupKv_append_single kvs k "bridges" v
      (fun he => hk (by rw [← he]; simp))
    simp only [decodeNetwork, optField, reqField, h1, h2, h3, h4]
  · intro kvs k v hk
    have h1 := lookupKv_append_single kvs k "addresses" v
      (fun he => hk (by rw [← he]; simp))
    have h2 := lookupKv_append_single kvs k "dhcp4" v
      (fun he => hk (by rw [← he]; simp))
    have h3 := lookupKv_append_single kvs k "gateway4" v
      (fun he => hk (by rw [← he]; simp))
    have h4 := lookupKv_append_single kvs k "nameservers" v
      (fun he => hk (by rw [← he]; simp))
    have h5 := lookupKv_append_single kvs k "optional" v
      (fun he => hk (by rw [← he]; simp))
    simp only [decodeNic, optField, h1, h2, h3, h4, h5]
  · intro kvs k v hk
    have h1 := lookupKv_append_single kvs k "interfaces" v
      (fun he => hk (by rw [← he]; simp))
    have h2 := lookupKv_append_single kvs k "addresses" v
      (fun he => hk (by rw [← he]; simp))
    have h3 := lookupKv_append_single kvs k "gateway4" v
      (fun he => hk (by rw [← he]; simp))
    have h4 := lookupKv_append_single kvs k "nameservers" v
      (fun he => hk (by rw [← he]; simp))
    simp only [decodeBridge, optField, reqField, h1, h2, h3, h4]

/-- Witness for the amended C4: a rejected top-level stray key and an
ignored in-entry stray key. -/
theorem C4_strict_amended_witness :
    decodeNetplanYaml (.map [("network", .null), ("extra", .null)]) = .error "unknown field" ∧
    decodeNic (.map ([] ++ [("mtu", .num 1500)])) = decodeNic (.map []) :=
  ⟨C4_strict_amended.1 [("network", .null), ("extra", .null)]
      ⟨("extra", .null), List.mem_cons_of_mem _ (List.mem_cons_self _ _), by decide⟩,
   C4_strict_amended.2.2.1 [] "mtu" (.num 1500) (by decide)⟩

/-- C7 counterexample: the bridge nameserver block's `addresses` field has
no skip attribute, so an unset value is serialized as an explicit null —
refuting "every unset optional field is omitted, never emitted as null",
which the claim extends to the bridge's nameserver block. -/
theorem C7_omission_counterexample :
    encodeAddress ⟨none, none⟩ = Yaml.map [("addresses", Yaml.null)] ∧
    encodeNetplanYaml docBridge = Yaml.map [("network", .map
      [("ethernets", .map []),
       ("bridges", .map [("br0", .map
         [("interfaces", .arr [.str "eth0"]),
          ("addresses", .arr [.str "10.0.0.2/24"]),
          ("nameservers", .map [("addresses", Yaml.null)])])])])] :=
  ⟨rfl, rfl⟩

/-- C7 (amended): every unset optional field is omitted entirely from the
serialized output — for all five interface-entry fields, for the
document-level `version`, `renderer` and `bridges`, for a bridge's
`gateway4` and for a nameserver block's `search` — with the single
exception of the nameserver block's `addresses` field, which is emitted
as an explicit null when unset. -/
theorem C7_omission_amended :
    (∀ n : Nic, (n.addresses = none → yFind (encodeNic n) "addresses" = none) ∧
      (n.dhcp4 = none → yFind (encodeNic n) "dhcp4" = none) ∧
      (n.gateway4 = none → yFind (encodeNic n) "gateway4" = none) ∧
      (n.nameservers = none → yFind (encodeNic n) "nameservers" = none) ∧
      (n.optional = none → yFind (encodeNic n) "optional" = none)) ∧
    (∀ net : Network, (net.version = none → yFind (encodeNetwork net) "version" = none) ∧
      (net.renderer = none → yFind (encodeNetwork net) "renderer" = none) ∧
      (net.bridges = none → yFind (encodeNetwork net) "bridges" = none)) ∧
    (∀ b : Bridge, b.gateway4 = none → yFind (encodeBridge b) "gateway4" = none) ∧
    (∀ a : Address, a.search = none → yFind (encodeAddress a) "search" = none) ∧
    (∀ a : Address, a.addresses = none →
      yFind (encodeAddress a) "addresses" = some Yaml.null) := by
  refine ⟨?_, ?_, ?_, ?_, ?_⟩
  · intro n
    obtain ⟨a, d, g, ns, opt⟩ := n
    refine ⟨?_, ?_, ?_, ?_, ?_⟩ <;> intro h <;> subst h <;>
      first
        | (cases d <;> cases g <;> cases ns <;> cases opt <;> rfl)
        | (cases a <;> cases g <;> cases ns <;> cases opt <;> rfl)
        | (cases a <;> cases d <;> cases ns <;> cases opt <;> rfl)
        | (cases a <;> cases d <;> cases g <;> cases opt <;> rfl)
        | (cases a <;> cases d <;> cases g <;> cases ns <;> rfl)
  · intro net
    obtain ⟨v, r, eths, brs⟩ := net
    refine ⟨?_, ?_, ?_⟩ <;> intro h <;> subst h <;>
      first
        | (cases r <;> cases brs <;> rfl)
        | (cases v <;> cases brs <;> rfl)
        | (cases v <;> cases r <;> rfl)
  · intro b h
    obtain ⟨i, a, g, ns⟩ := b
    subst h
    rfl
  · intro a h
    obtain ⟨s, ad⟩ := a
    subst h
    cases ad <;> rfl
  · intro a h
    obtain ⟨s, ad⟩ := a
    subst h
    cases s <;> rfl

/-- Witness for the amended C7: the all-unset interface entry omits its
fields; the all-unset nameserver block still emits a null `addresses`. -/
theorem C7_omission_amended_witness :
    yFind (encodeNic nicE) "addresses" = none ∧
    yFind (encodeAddress ⟨none, none⟩) "addresses" = some Yaml.null :=
  ⟨(C7_omission_amended.1 nicE).1 rfl, C7_omission_amended.2.2.2.2 ⟨none, none⟩ rfl⟩

/-! ## Helper lemmas: the loader fold -/

theorem loadAux_ne_notFound (rest : List Yaml) :
    ∀ acc : Option NetplanYaml, acc.isSome = true ∨ rest ≠ [] →
      loadAux acc rest ≠ .error .configNotFound := by
  induction rest with
  | nil =>
    intro acc h
    rcases h with h | h
    · cases acc with
      | none => simp at h
      | some n => simp [loadAux]
    · exact absurd rfl h
  | cons y rest ih =>
    intro acc h
    simp only [loadAux]
    cases hd : decodeNetplanYaml y with
    | error s => simp
    | ok cfg =>
      apply ih
      left
      cases acc <;> rfl

theorem loadAux_all_ok (rest : List Yaml) :
    ∀ (docs : List NetplanYaml) (d : NetplanYaml),
      rest.mapM decodeNetplanYaml = .ok docs →
      loadAux (some d) rest = .ok (docs.foldl NetplanYaml.merge d) := by
  induction rest with
  | nil =>
    intro docs d h
    simp only [List.mapM_nil, pure, Except.pure, Except.ok.injEq] at h
    subst h
    rfl
  | cons y rest ih =>
    intro docs d h
    rw [List.mapM_cons] at h
    cases hd : decodeNetplanYaml y with
    | error s =>
      rw [hd] at h
      simp [bind, Except.bind] at h
    | ok cfg =>
      rw [hd] at h
      cases hr : rest.mapM decodeNetplanYaml with
      | error s =>
        rw [hr] at h
        simp [bind, Except.bind, pure, Except.pure] at h
      | ok cs =>
        rw [hr] at h
        simp only [bind, Except.bind, pure, Except.pure, Except.ok.injEq] at h
        subst h
        simp only [loadAux, hd]
        rw [ih cs (d.merge cfg) hr]
        rfl

theorem loadAux_aborts (pre : List Yaml) :
    ∀ (acc : Option NetplanYaml) (docs : List NetplanYaml) (y : Yaml)
      (post : List Yaml) (s : String),
      pre.mapM decodeNetplanYaml = .ok docs →
      decodeNetplanYaml y = .error s →
      loadAux acc (pre ++ y :: post) = .error (.malformedConfig s) := by
  induction pre with
  | nil =>
    intro acc docs y post s _ hy
    simp only [List.nil_append, loadAux, hy]
  | cons z rest ih =>
    intro acc docs y post s h hy
    rw [List.mapM_cons] at h
    cases hz : decodeNetplanYaml z with
    | error t =>
      rw [hz] at h
      simp [bind, Except.bind] at h
    | ok cfg =>
      rw [hz] at h
      cases hr : rest.mapM decodeNetplanYaml with
      | error t =>
        rw [hr] at h
        simp [bind, Except.bind, pure, Except.pure] at h
      | ok cs =>
        show loadAux acc (z :: (rest ++ y :: post)) = _
        simp only [loadAux, hz]
        exact ih _ cs y post s hr hy

/-- C8 counterexample: a directory whose single file fails to parse makes
the loader abort with that parse error rather than `ConfigNotFound`, even
though it yielded zero parseable files — refuting "`ConfigNotFound`
exactly when zero parseable files". -/
theorem C8_loader_counterexample :
    load_netplan_yaml [Yaml.map [("bogus", Yaml.null)]]
      = .error (.malformedConfig "unknown field") ∧
    load_netplan_yaml [Yaml.map [("bogus", Yaml.null)]] ≠ .error .configNotFound :=
  ⟨rfl, by
    intro h
    have h2 : (Except.error (IfError.malformedConfig "unknown field") :
        Except IfError NetplanYaml) = .error .configNotFound :=
      (rfl : load_netplan_yaml [Yaml.map [("bogus", Yaml.null)]]
        = .error (.malformedConfig "unknown field")).symm.trans h
    simp at h2⟩

/-- C8 (amended): the loader fails with `ConfigNotFound` exactly when the
directory yields zero files; any file that fails to parse aborts the whole
load with that parse error, even when every other file would parse (the
files before it having parsed, the loader stops at the failing one
wherever it sits in the enumeration); when every file parses, the loader
folds all parsed documents sequentially via `merge`, in enumeration
order. -/
theorem C8_loader_amended :
    (load_netplan_yaml [] = .error .configNotFound) ∧
    (∀ contents : List Yaml, contents ≠ [] →
      load_netplan_yaml contents ≠ .error .configNotFound) ∧
    (∀ (pre : List Yaml) (docs : List NetplanYaml) (y : Yaml) (post : List Yaml)
        (s : String),
      pre.mapM decodeNetplanYaml = .ok docs →
      decodeNetplanYaml y = .error s →
      load_netplan_yaml (pre ++ y :: post) = .error (.malformedConfig s)) ∧
    (∀ (contents : List Yaml) (docs : List NetplanYaml) (d : NetplanYaml)
        (ds : List NetplanYaml),
      contents.mapM decodeNetplanYaml = .ok docs → docs = d :: ds →
      load_netplan_yaml contents = .ok (ds.foldl NetplanYaml.merge d)) := by
  refine ⟨rfl, ?_, ?_, ?_⟩
  · intro contents h
    exact loadAux_ne_notFound contents none (Or.inr h)
  · intro pre docs y post s hpre hy
    exact loadAux_aborts pre none docs y post s hpre hy
  · intro contents docs d ds h hdocs
    subst hdocs
    cases contents with
    | nil =>
      rw [List.mapM_nil] at h
      simp only [pure, Except.pure, Except.ok.injEq] at h
      cases h
    | cons y rest =>
      rw [List.mapM_cons] at h
      cases hd : decodeNetplanYaml y with
      | error s =>
        rw [hd] at h
        simp [bind, Except.bind] at h
      | ok cfg =>
        rw [hd] at h
        cases hr : rest.mapM decodeNetplanYaml with
        | error s =>
          rw [hr] at h
          simp [bind, Except.bind, pure, Except.pure] at h
        | ok cs =>
          rw [hr] at h
          simp only [bind, Except.bind, pure, Except.pure, Except.ok.injEq,
            List.cons.injEq] at h
          obtain ⟨rfl, rfl⟩ := h
          show loadAux none (y :: rest) = _
          simp only [loadAux, hd]
          exact loadAux_all_ok rest cs cfg hr

/-- Witness for the amended C8: a one-file directory loads; an unparseable
file sandwiched between two parseable ones aborts the whole load with its
parse error. -/
theorem C8_loader_amended_witness :
    load_netplan_yaml [yamlBA] ≠ .error .configNotFound ∧
    load_netplan_yaml [yamlBA, Yaml.map [("bogus", Yaml.null)], yamlBA]
      = .error (.malformedConfig "unknown field") ∧
    load_netplan_yaml [yamlBA] = .ok docBA :=
  ⟨C8_loader_amended.2.1 [yamlBA] (by simp),
   C8_loader_amended.2.2.1 [yamlBA] [docBA] (Yaml.map [("bogus", Yaml.null)]) [yamlBA]
     "unknown field" rfl rfl,
   C8_loader_amended.2.2.2 [yamlBA] [docBA] docBA [] rfl rfl⟩

/-! ## Helper lemmas: the file-system model of `apply` -/

theorem hasKey_eq_isSome_lookupKv {β : Type} (l : List (String × β)) (k : String) :
    hasKey l k = (lookupKv l k).isSome := by
  induction l with
  | nil => rfl
  | cons p rest ih =>
    obtain ⟨pk, pv⟩ := p
    by_cases h : pk = k
    · subst h
      simp [hasKey, lookupKv]
    · have hb : (pk == k) = false := beq_eq_false_iff_ne.mpr h
      simp only [hasKey, List.any_cons, hb, Bool.false_or, lookupKv, h, if_false]
      exact ih

theorem lookupKv_append_left_none {β : Type} (l1 l2 : List (String × β)) (k : String)
    (h : lookupKv l1 k = none) :
    lookupKv (l1 ++ l2) k = lookupKv l2 k := by
  induction l1 with
  | nil => rfl
  | cons p rest ih =>
    obtain ⟨pk, pv⟩ := p
    by_cases hpk : pk = k
    · simp [lookupKv, hpk] at h
    · simp only [lookupKv, hpk, if_false] at h
      simp only [List.cons_append, lookupKv, hpk, if_false]
      exact ih h

theorem lookupKv_eq_none_of_not_mem {β : Type} (l : List (String × β)) (k : String)
    (h : k ∉ l.map Prod.fst) : lookupKv l k = none := by
  induction l with
  | nil => rfl
  | cons p rest ih =>
    obtain ⟨pk, pv⟩ := p
    simp only [List.map_cons, List.mem_cons] at h
    push_neg at h
    simp only [lookupKv, Ne.symm h.1, if_false]
    exact ih h.2

theorem lookupKv_upsert_self {β : Type} (l : List (String × β)) (k : String) (v : β) :
    lookupKv (upsert l k v) k = some v := by
  unfold upsert
  by_cases h : hasKey l k = true
  · rw [if_pos h]
    apply lookupKv_replaceFirst_self
    rw [hasKey_eq_isSome_lookupKv] at h
    exact Option.ne_none_iff_isSome.mpr h
  · rw [if_neg h]
    have hnone : lookupKv l k = none := by
      rw [hasKey_eq_isSome_lookupKv, Bool.not_eq_true] at h
      exact Option.not_isSome_iff_eq_none.mp (by rw [h]; exact Bool.false_ne_true)
    rw [lookupKv_append_left_none _ _ _ hnone]
    simp [lookupKv]

theorem lookupKv_eraseKey_self {β : Type} (l : List (String × β)) (k : String)
    (h : (l.map Prod.fst).Nodup) :
    lookupKv (eraseKey l k) k = none := by
  induction l with
  | nil => rfl
  | cons p rest ih =>
    obtain ⟨pk, pv⟩ := p
    simp only [List.map_cons, List.nodup_cons] at h
    by_cases hpk : pk = k
    · subst hpk
      simp only [eraseKey, if_pos rfl]
      exact lookupKv_eq_none_of_not_mem rest pk h.1
    · simp only [eraseKey, hpk, if_false, lookupKv]
      exact ih h.2

theorem upsert_keys_nodup {β : Type} (l : List (String × β)) (k : String) (v : β)
    (h : (l.map Prod.fst).Nodup) :
    ((upsert l k v).map Prod.fst).Nodup := by
  unfold upsert
  by_cases hk : hasKey l k = true
  · rw [if_pos hk, replaceFirst_map_fst]
    exact h
  · rw [if_neg hk, List.map_append]
    have hnm : k ∉ l.map Prod.fst := fun hm => hk ((hasKey_iff _ _).mpr hm)
    simp [List.nodup_append, h, hnm]

theorem primaryName_cons (f : String) (rest : List String) :
    primaryName (f :: rest) = f := by
  unfold primaryName
  simp only [List.head?_cons]
  by_cases h : (f != DEFAULT_NETPLAN_YAML) = true
  · rw [if_pos h]
  · rw [if_neg h]
    simp only [bne_iff_ne, ne_eq, not_not] at h
    exact h.symm

theorem removeOthers_clears (f : String) (c : Yaml) (rest : List String) :
    ∀ t : List (String × Yaml), t.map Prod.fst = rest → f ∉ rest →
      removeOthers f rest ((f, c) :: t) = ([(f, c)], none) := by
  induction rest with
  | nil =>
    intro t ht _
    have : t = [] := List.map_eq_nil_iff.mp ht
    subst this
    rfl
  | cons r rs ih =>
    intro t ht hf
    cases t with
    | nil => simp at ht
    | cons q t' =>
      obtain ⟨qk, qv⟩ := q
      simp only [List.map_cons, List.cons.injEq] at ht
      obtain ⟨rfl, ht'⟩ := ht
      have hfr : f ≠ qk := fun he => hf (he ▸ List.mem_cons_self _ _)
      have hfrs : f ∉ rs := fun hm => hf (List.mem_cons_of_mem _ hm)
      show removeOthers f (qk :: rs) ((f, c) :: (qk, qv) :: t') = ([(f, c)], none)
      unfold removeOthers
      rw [if_pos (by simp [bne_iff_ne]; exact fun he => hfr he.symm)]
      have hrem : fsRemove ((f, c) :: (qk, qv) :: t') qk = .ok ((f, c) :: t') := by
        unfold fsRemove
        rw [if_pos (by simp [hasKey])]
        simp [eraseKey, hfr]
      rw [hrem]
      exact ih t' ht' hfrs

/-- C6: a successful commit of `apply` — on a directory whose enumeration
matches its contents — writes the serialized document to the primary file
(the first enumerated file's name, or the fixed default `01-netcfg.yaml`
when the directory is empty), deletes the staging file, and deletes every
other enumerated file, so exactly one document file remains in the target
directory. -/
theorem C6_commit_single_file (doc : NetplanYaml) (files : List String) (fs : Fs)
    (henum : fs.target.map Prod.fst = files) (hnodup : files.Nodup)
    (htmp : (fs.tmp.map Prod.fst).Nodup) :
    ∃ tmp', doc.apply files fs =
        (⟨tmp', [(primaryName files, encodeNetplanYaml doc)]⟩, none) ∧
      lookupKv tmp' (primaryName files) = none := by
  refine ⟨eraseKey (upsert fs.tmp (primaryName files) (encodeNetplanYaml doc))
      (primaryName files), ?_, ?_⟩
  · unfold NetplanYaml.apply
    simp only [lookupKv_upsert_self]
    have hrem : fsRemove (upsert fs.tmp (primaryName files) (encodeNetplanYaml doc))
        (primaryName files)
        = .ok (eraseKey (upsert fs.tmp (primaryName files) (encodeNetplanYaml doc))
            (primaryName files)) := by
      unfold fsRemove
      rw [if_pos (by rw [hasKey_eq_isSome_lookupKv, lookupKv_upsert_self]; rfl)]
    rw [hrem]
    cases files with
    | nil =>
      have ht : fs.target = [] := List.map_eq_nil_iff.mp henum
      rw [ht]
      rfl
    | cons f rest =>
      rw [primaryName_cons]
      cases htgt : fs.target with
      | nil => rw [htgt] at henum; cases henum
      | cons q t =>
        obtain ⟨qk, qv⟩ := q
        rw [htgt] at henum
        simp only [List.map_cons, List.cons.injEq] at henum
        obtain ⟨rfl, ht'⟩ := henum
        show ((⟨eraseKey (upsert fs.tmp qk (encodeNetplanYaml doc)) qk,
            (removeOthers qk (qk :: rest)
              (upsert ((qk, qv) :: t) qk (encodeNetplanYaml doc))).1⟩ : Fs),
            (removeOthers qk (qk :: rest)
              (upsert ((qk, qv) :: t) qk (encodeNetplanYaml doc))).2)
          = (⟨eraseKey (upsert fs.tmp qk (encodeNetplanYaml doc)) qk,
              [(qk, encodeNetplanYaml doc)]⟩, none)
        have hup : upsert ((qk, qv) :: t) qk (encodeNetplanYaml doc)
            = (qk, encodeNetplanYaml doc) :: t := by
          unfold upsert
          rw [if_pos (by simp [hasKey])]
          simp [replaceFirst]
        rw [hup]
        have hfrest : qk ∉ rest := (List.nodup_cons.mp hnodup).1
        have hro : removeOthers qk (qk :: rest) ((qk, encodeNetplanYaml doc) :: t)
            = ([(qk, encodeNetplanYaml doc)], none) := by
          unfold removeOthers
          rw [if_neg (by simp)]
          exact removeOthers_clears qk (encodeNetplanYaml doc) rest t ht' hfrest
        rw [hro]
  · exact lookupKv_eraseKey_self _ _
      (upsert_keys_nodup fs.tmp (primaryName files) (encodeNetplanYaml doc) htmp)

/-- Witness for C6: committing over a two-file directory leaves exactly
the first file, holding the new document. -/
theorem C6_commit_single_file_witness :
    ∃ tmp', NetplanYaml.apply emptyDoc ["20-a.yaml", "30-b.yaml"]
        ⟨[], [("20-a.yaml", .null), ("30-b.yaml", .null)]⟩ =
      (⟨tmp', [(primaryName ["20-a.yaml", "30-b.yaml"], encodeNetplanYaml emptyDoc)]⟩, none) ∧
      lookupKv tmp' (primaryName ["20-a.yaml", "30-b.yaml"]) = none :=
  C6_commit_single_file emptyDoc ["20-a.yaml", "30-b.yaml"]
    ⟨[], [("20-a.yaml", .null), ("30-b.yaml", .null)]⟩ rfl (by decide) (by decide)

end Roxy
